import Mathlib

/-!
Shallow embedding of `src/requests.rs` from the `bim-core` repository.

The Rust file provides four public functions:
* `make_connection`   — TCP connect with 3 retries, optional TLS wrapping;
* `request_tcp_ping`  — one timed connect, failure mapped to a 1_000_000 µs sentinel;
* `request_http_download` / `request_http_upload` — throughput workers that
  synchronize on a start barrier and an end barrier, loop until a shared stop
  flag becomes true, and accumulate transferred bytes into a shared counter.

External effects (connect outcomes, per-operation I/O success, the stop-flag
value at each poll, and the wall-clock timestamps sampled when a request head
is built) are supplied as oracles.  Each worker is modelled as a function from
its oracles to the list of observable events it performs (barrier waits,
stream writes/reads, shared-counter increments, local-counter resets) together
with the final value of the shared counter.  Loops are run on explicit fuel;
an execution that exhausts its fuel is reported as such (`ExitKind.fuelOut`)
and is a truncated run still inside the loop.
-/

namespace BimCore

/-- Timeout passed to `TcpStream::connect_timeout` in `make_connection`
(`Duration::from_micros(3_000_000)`). -/
def connectTimeoutMicros : Nat := 3000000

/-- Read/write timeouts applied to the raw stream in `make_connection`
(`Duration::from_secs(3)`). -/
def streamTimeoutSecs : Nat := 3

/-- Timeout passed to `TcpStream::connect_timeout` in `request_tcp_ping`
(`Duration::from_micros(1_000_000)`). -/
def pingTimeoutMicros : Nat := 1000000

/-- Initial value of `retry` in `make_connection`. -/
def connectRetryCount : Nat := 3

/-- Outcome of `make_connection`: an established stream (plain or TLS), the
error string from the exhausted retry loop, or a panic (the Rust code calls
`.unwrap()` on the TLS server-name conversion and on
`rustls::ClientConnection::new`, so an encryption-negotiation setup failure
aborts the thread instead of returning `Err`). -/
inductive ConnOutcome where
  | ok (tls : Bool)
  | err (msg : String)
  | panicked
  deriving DecidableEq, Repr

/-- Result of `make_connection` together with the number of
`TcpStream::connect_timeout` calls that were performed. -/
structure ConnResult where
  outcome : ConnOutcome
  attempts : Nat
  deriving DecidableEq, Repr

/-- The `while retry > 0` loop of `make_connection`.  `connect i` is the
oracle for the success of the `i`-th (0-based) `connect_timeout` call;
`tlsOk` tells whether the TLS server-name conversion and client-connection
construction succeed (when `ssl` is set).  `used` counts connect calls made
so far. -/
def make_connection_go (connect : Nat → Bool) (ssl tlsOk : Bool) :
    Nat → Nat → ConnResult
  | 0, used => ⟨.err "连接失败", used⟩
  | retry + 1, used =>
    if connect used then
      if ssl = false then ⟨.ok false, used + 1⟩
      else if tlsOk then ⟨.ok true, used + 1⟩
      else ⟨.panicked, used + 1⟩
    else
      make_connection_go connect ssl tlsOk retry (used + 1)

/-- `make_connection` from `src/requests.rs`: up to `connectRetryCount = 3`
timed connect attempts; a successful connect immediately returns the (plain
or TLS-wrapped) stream; exhausting the retries returns the error string. -/
def make_connection (connect : Nat → Bool) (ssl tlsOk : Bool) : ConnResult :=
  make_connection_go connect ssl tlsOk connectRetryCount 0

/-- `request_tcp_ping` from `src/requests.rs`.  `connectOk` is the outcome of
the single `connect_timeout` call (1-second timeout) and `elapsedMicros` the
elapsed time measured around it.  On failure the measured time is replaced by
the sentinel `1_000_000`; the function always returns `Ok`. -/
def request_tcp_ping (connectOk : Bool) (elapsedMicros : Nat) :
    Except String Nat :=
  let used := if connectOk then elapsedMicros else 1000000
  Except.ok used

/-- Observable events of a throughput worker:
* `startWait` / `endWait` — arrival at the start / end barrier;
* `sendHead s` — a successful `write_all` of the request head `s`;
* `readChunk n` — a successful `read_exact` of an `n`-byte block (download);
* `sendChunk n` — a successful `write_all` of the `n`-byte payload chunk (upload);
* `addCounter n` — adding `n` to the shared counter under the write lock;
* `localReset` — the assignment `data_counter = 0` after a request head is sent;
* `ioError` — a failed read/write on the stream;
* `panicOut` — the thread aborted by a panic before reaching any barrier. -/
inductive Event where
  | startWait
  | endWait
  | sendHead (head : String)
  | readChunk (n : Nat)
  | sendChunk (n : Nat)
  | addCounter (n : Nat)
  | localReset
  | ioError
  | panicOut
  deriving DecidableEq, Repr

/-- How the fuelled measurement loop ended: the stop flag was observed true,
an I/O error occurred, or the fuel ran out (truncated model run). -/
inductive ExitKind where
  | flagStop
  | ioFail
  | fuelOut
  deriving DecidableEq, Repr

/-- `format!("{}:{}", url.host_str().unwrap(), url.port_or_known_default().unwrap())`. -/
def host_port (host : String) (port : Nat) : String :=
  host ++ ":" ++ toString port

/-- The GET request head built by `request_http_download`:
`format!("GET {} HTTP/1.1\r\nHost: {}\r\nUser-Agent: bim/1.0\r\n\r\n", path_query, host_port)`
with `path_query = format!("{}?cors=true&r={}&ckSize={}&size={}", path, now, chunk_count, data_size)`. -/
def download_request_head (path : String) (nowMs : Nat)
    (chunk_count data_size : Nat) (hp : String) : String :=
  "GET " ++ path ++ "?cors=true&r=" ++ toString nowMs ++ "&ckSize=" ++
    toString chunk_count ++ "&size=" ++ toString data_size ++
    " HTTP/1.1\r\nHost: " ++ hp ++ "\r\nUser-Agent: bim/1.0\r\n\r\n"

/-- The POST request head built by `request_http_upload`:
`format!("POST {} HTTP/1.1\r\nHost: {}\r\nUser-Agent: bim/1.0\r\nContent-Length: {}\r\n\r\n", path_query, host_port, data_size)`
with `path_query = format!("{}?r={}", url_path, now)`. -/
def upload_request_head (path : String) (nowMs : Nat)
    (hp : String) (data_size : Nat) : String :=
  "POST " ++ path ++ "?r=" ++ toString nowMs ++ " HTTP/1.1\r\nHost: " ++ hp ++
    "\r\nUser-Agent: bim/1.0\r\nContent-Length: " ++ toString data_size ++
    "\r\n\r\n"

/-- `n` copies of `s` concatenated (Rust `str::repeat`). -/
def strRepeat (s : String) : Nat → String
  | 0 => ""
  | n + 1 => s ++ strRepeat s n

/-- The 64-character pattern repeated to build the upload payload chunk. -/
def upload_chunk_pattern : String :=
  "0123456789AaBbCcDdEeFfGgHhIiJjKkLlMmNnOoPpQqRrSsTtUuVvWwXxYyZz-="

/-- `request_chunk` from `request_http_upload`: the pattern repeated 1024
times, then turned into bytes. -/
def request_chunk : String := strRepeat upload_chunk_pattern 1024

/-- Byte length of the upload payload chunk (`request_chunk` is ASCII, so its
UTF-8 byte length is what `Vec::<u8>::len` returns in the Rust code). -/
def request_chunk_len : Nat := request_chunk.utf8ByteSize

/-- The `while !*(flag.read().unwrap())` loop of `request_http_download`.
State: remaining fuel, next flag-poll index, next stream-operation index,
next timestamp index, `data_counter`, and the shared counter value.
Returns the events performed, the final shared counter, and the exit kind. -/
def download_loop (flag io : Nat → Bool) (times : Nat → Nat)
    (chunk_count data_size : Nat) (hp path : String) :
    Nat → Nat → Nat → Nat → Nat → Nat → List Event × Nat × ExitKind
  | 0, _, _, _, _, counter => ([], counter, .fuelOut)
  | fuel + 1, pollIdx, ioIdx, reqIdx, data_counter, counter =>
    if flag pollIdx then ([], counter, .flagStop)
    else if data_size ≤ data_counter then
      let head := download_request_head path (times reqIdx) chunk_count data_size hp
      if io ioIdx then
        let r := download_loop flag io times chunk_count data_size hp path
          fuel (pollIdx + 1) (ioIdx + 1) (reqIdx + 1) 0 counter
        (.sendHead head :: .localReset :: r.1, r.2)
      else ([.ioError], counter, .ioFail)
    else
      if io ioIdx then
        let r := download_loop flag io times chunk_count data_size hp path
          fuel (pollIdx + 1) (ioIdx + 1) reqIdx (data_counter + 65536)
          (counter + 65536)
        (.readChunk 65536 :: .addCounter 65536 :: r.1, r.2)
      else ([.ioError], counter, .ioFail)

/-- `request_http_download` from `src/requests.rs`.  On a connection-
establishment error it waits on the start barrier, then the end barrier, and
returns without touching the counter.  On a panic inside `make_connection`
the thread aborts before reaching any barrier.  Otherwise it arrives at the
start barrier, runs the measurement loop, and arrives at the end barrier
(unless the model run is truncated by fuel exhaustion). -/
def request_http_download (connect : Nat → Bool) (ssl tlsOk : Bool)
    (connection_close : Bool) (flag io : Nat → Bool) (times : Nat → Nat)
    (host : String) (port : Nat) (path : String) (fuel : Nat)
    (counter : Nat) : List Event × Nat :=
  let chunk_count : Nat := if connection_close then 15000 else 50
  let data_size : Nat := chunk_count * 1024 * 1024
  let hp := host_port host port
  match (make_connection connect ssl tlsOk).outcome with
  | .panicked => ([.panicOut], counter)
  | .err _ => ([.startWait, .endWait], counter)
  | .ok _ =>
    let r := download_loop flag io times chunk_count data_size hp path
      fuel 0 0 0 data_size counter
    (.startWait :: r.1 ++ (if r.2.2 = .fuelOut then [] else [.endWait]), r.2.1)

/-- The `while !*(flag.read().unwrap())` loop of `request_http_upload`.
Same state layout as `download_loop`. -/
def upload_loop (flag io : Nat → Bool) (times : Nat → Nat)
    (data_size : Nat) (hp path : String) :
    Nat → Nat → Nat → Nat → Nat → Nat → List Event × Nat × ExitKind
  | 0, _, _, _, _, counter => ([], counter, .fuelOut)
  | fuel + 1, pollIdx, ioIdx, reqIdx, data_counter, counter =>
    if flag pollIdx then ([], counter, .flagStop)
    else if data_size ≤ data_counter then
      let head := upload_request_head path (times reqIdx) hp data_size
      if io ioIdx then
        let r := upload_loop flag io times data_size hp path
          fuel (pollIdx + 1) (ioIdx + 1) (reqIdx + 1) 0
          (counter + head.utf8ByteSize)
        (.sendHead head :: .addCounter head.utf8ByteSize :: .localReset :: r.1,
          r.2)
      else ([.ioError], counter, .ioFail)
    else
      if io ioIdx then
        let r := upload_loop flag io times data_size hp path
          fuel (pollIdx + 1) (ioIdx + 1) reqIdx (data_counter + 65536)
          (counter + 65536)
        (.sendChunk request_chunk_len :: .addCounter 65536 :: r.1, r.2)
      else ([.ioError], counter, .ioFail)

/-- `request_http_upload` from `src/requests.rs`, mirrored like
`request_http_download`. -/
def request_http_upload (connect : Nat → Bool) (ssl tlsOk : Bool)
    (connection_close : Bool) (flag io : Nat → Bool) (times : Nat → Nat)
    (host : String) (port : Nat) (path : String) (fuel : Nat)
    (counter : Nat) : List Event × Nat :=
  let chunk_count : Nat := if connection_close then 15000 else 50
  let data_size : Nat := chunk_count * 1024 * 1024
  let hp := host_port host port
  match (make_connection connect ssl tlsOk).outcome with
  | .panicked => ([.panicOut], counter)
  | .err _ => ([.startWait, .endWait], counter)
  | .ok _ =>
    let r := upload_loop flag io times data_size hp path
      fuel 0 0 0 data_size counter
    (.startWait :: r.1 ++ (if r.2.2 = .fuelOut then [] else [.endWait]), r.2.1)

/-- Running value of the shared counter after a list of events. -/
def applyEvents (c : Nat) : List Event → Nat
  | [] => c
  | .addCounter n :: t => applyEvents (c + n) t
  | _ :: t => applyEvents c t

/-- Number of shared-counter increments in a trace. -/
def countAdds : List Event → Nat
  | [] => 0
  | .addCounter _ :: t => countAdds t + 1
  | _ :: t => countAdds t

/-- Number of successful payload reads in a trace. -/
def countReads : List Event → Nat
  | [] => 0
  | .readChunk _ :: t => countReads t + 1
  | _ :: t => countReads t

/-- Payload bytes written before the first request head of a trace (the whole
trace when it contains no request head). -/
def preHeadPayload : List Event → Nat
  | [] => 0
  | .sendHead _ :: _ => 0
  | .sendChunk n :: t => n + preHeadPayload t
  | _ :: t => preHeadPayload t

/-- Whether a trace contains a request-head write. -/
def hasHead : List Event → Bool
  | [] => false
  | .sendHead _ :: _ => true
  | _ :: t => hasHead t

/-- A pool of workers run one after the other, threading the shared counter
(failed workers never touch the counter, so any interleaving yields the same
final value). -/
def runPool : List (Nat → List Event × Nat) → Nat → Nat
  | [], c => c
  | w :: ws, c => runPool ws (w c).2

/-- What `make_connection` does after a successful connect: a plain stream
when `ssl` is off, a TLS stream when negotiation setup succeeds, and a panic
(from the `.unwrap()` calls on the server name and client connection)
otherwise. -/
def tcpEstablish (ssl tlsOk : Bool) (attempts : Nat) : ConnResult :=
  if ssl = false then ⟨.ok false, attempts⟩
  else if tlsOk then ⟨.ok true, attempts⟩
  else ⟨.panicked, attempts⟩

/-- Grammar of the event lists produced by the download measurement loop: the
empty list (stop flag observed), a terminal I/O error, a successful request-
head write (`write_all` of the GET head, then `data_counter = 0`), or a
successful 64 KiB `read_exact` followed by the shared-counter increment. -/
inductive DlTraceOk (path hp : String) (times : Nat → Nat) (ck ds : Nat) :
    List Event → Prop where
  | nil : DlTraceOk path hp times ck ds []
  | fail : DlTraceOk path hp times ck ds [.ioError]
  | head (k : Nat) (t : List Event) :
      DlTraceOk path hp times ck ds t →
      DlTraceOk path hp times ck ds
        (.sendHead (download_request_head path (times k) ck ds hp) ::
          .localReset :: t)
  | chunk (t : List Event) :
      DlTraceOk path hp times ck ds t →
      DlTraceOk path hp times ck ds (.readChunk 65536 :: .addCounter 65536 :: t)

/-- Grammar of the event lists produced by the upload measurement loop: the
empty list, a terminal I/O error, a successful POST-head write (crediting the
head's byte length to the shared counter, then `data_counter = 0`), or a
successful payload-chunk write crediting 65536. -/
inductive UlTraceOk (path hp : String) (times : Nat → Nat) (ds : Nat) :
    List Event → Prop where
  | nil : UlTraceOk path hp times ds []
  | fail : UlTraceOk path hp times ds [.ioError]
  | head (k : Nat) (t : List Event) :
      UlTraceOk path hp times ds t →
      UlTraceOk path hp times ds
        (.sendHead (upload_request_head path (times k) hp ds) ::
          .addCounter (upload_request_head path (times k) hp ds).utf8ByteSize ::
          .localReset :: t)
  | chunk (t : List Event) :
      UlTraceOk path hp times ds t →
      UlTraceOk path hp times ds
        (.sendChunk request_chunk_len :: .addCounter 65536 :: t)

theorem tcpEstablish_attempts (ssl tlsOk : Bool) (a : Nat) :
    (tcpEstablish ssl tlsOk a).attempts = a := by
  unfold tcpEstablish; split_ifs <;> rfl

/-- The three-attempt retry loop of `make_connection`, unfolded. -/
theorem make_connection_eq (connect : Nat → Bool) (ssl tlsOk : Bool) :
    make_connection connect ssl tlsOk =
      (if connect 0 then tcpEstablish ssl tlsOk 1
       else if connect 1 then tcpEstablish ssl tlsOk 2
       else if connect 2 then tcpEstablish ssl tlsOk 3
       else ⟨.err "连接失败", 3⟩) := rfl

theorem forall_lt_three (p : Nat → Prop) :
    (∀ j, j < 3 → p j) ↔ p 0 ∧ p 1 ∧ p 2 := by
  constructor
  · intro h; exact ⟨h 0 (by omega), h 1 (by omega), h 2 (by omega)⟩
  · rintro ⟨h0, h1, h2⟩ j hj
    interval_cases j <;> assumption

theorem exists_lt_three (p : Nat → Prop) :
    (∃ i, i < 3 ∧ p i) ↔ p 0 ∨ p 1 ∨ p 2 := by
  constructor
  · rintro ⟨i, hi, h⟩; interval_cases i <;> tauto
  · rintro (h | h | h)
    exacts [⟨0, by omega, h⟩, ⟨1, by omega, h⟩, ⟨2, by omega, h⟩]

theorem cons_eq_append_cons {α : Type} (e x : α) (t t1 t2 : List α)
    (h : e :: t = t1 ++ x :: t2) :
    (t1 = [] ∧ e = x ∧ t = t2) ∨
      ∃ t1', t1 = e :: t1' ∧ t = t1' ++ x :: t2 := by
  cases t1 with
  | nil =>
    injection h with h1 h2
    exact Or.inl ⟨rfl, h1, h2⟩
  | cons a t1' =>
    injection h with h1 h2
    subst h1
    exact Or.inr ⟨t1', rfl, h2⟩

theorem append_split_left {α : Type} (l tail u v : List α) (x : α)
    (hx : x ∉ tail) (h : l ++ tail = u ++ x :: v) :
    ∃ v', l = u ++ x :: v' ∧ v = v' ++ tail := by
  rcases List.append_eq_append_iff.mp h with ⟨a', _, hb⟩ | ⟨c', hc1, hc2⟩
  · exact absurd (by rw [hb]; exact List.mem_append_right a' (List.mem_cons_self x v)) hx
  · cases c' with
    | nil =>
      simp only [List.nil_append] at hc2
      exact absurd (by rw [← hc2]; exact List.mem_cons_self x v) hx
    | cons y c'' =>
      injection hc2 with h1 h2
      subst h1
      exact ⟨c'', by simp [hc1], h2⟩

theorem applyEvents_cons (e : Event) (t : List Event) (c : Nat) :
    applyEvents c (e :: t) =
      applyEvents (c + (match e with | .addCounter n => n | _ => 0)) t := by
  cases e <;> simp [applyEvents]

theorem applyEvents_append (t1 t2 : List Event) :
    ∀ c, applyEvents c (t1 ++ t2) = applyEvents (applyEvents c t1) t2 := by
  induction t1 with
  | nil => intro c; rfl
  | cons e t ih =>
    intro c
    cases e <;> simp [applyEvents, ih]

theorem le_applyEvents (t : List Event) : ∀ c, c ≤ applyEvents c t := by
  induction t with
  | nil => intro c; exact Nat.le_refl c
  | cons e t ih =>
    intro c
    cases e <;> simp only [applyEvents] <;>
      first
        | exact ih c
        | exact Nat.le_trans (Nat.le_add_right c _) (ih _)

theorem countAdds_append (t1 t2 : List Event) :
    countAdds (t1 ++ t2) = countAdds t1 + countAdds t2 := by
  induction t1 with
  | nil => simp [countAdds]
  | cons e t ih => cases e <;> simp [countAdds, ih] <;> omega

theorem countReads_append (t1 t2 : List Event) :
    countReads (t1 ++ t2) = countReads t1 + countReads t2 := by
  induction t1 with
  | nil => simp [countReads]
  | cons e t ih => cases e <;> simp [countReads, ih] <;> omega

theorem hasHead_append (t1 t2 : List Event) :
    hasHead (t1 ++ t2) = (hasHead t1 || hasHead t2) := by
  induction t1 with
  | nil => simp [hasHead]
  | cons e t ih => cases e <;> simp [hasHead, ih]

theorem preHeadPayload_append (t1 t2 : List Event) :
    preHeadPayload (t1 ++ t2) =
      preHeadPayload t1 + (if hasHead t1 then 0 else preHeadPayload t2) := by
  induction t1 with
  | nil => simp [preHeadPayload, hasHead]
  | cons e t ih => cases e <;> simp [preHeadPayload, hasHead, ih] <;> omega

theorem utf8ByteSize_append (a b : String) :
    (a ++ b).utf8ByteSize = a.utf8ByteSize + b.utf8ByteSize := by
  cases a with
  | mk l1 =>
    cases b with
    | mk l2 =>
      have h : (String.mk l1 ++ String.mk l2) = String.mk (l1 ++ l2) := rfl
      rw [h, String.utf8ByteSize_mk, String.utf8ByteSize_mk,
        String.utf8ByteSize_mk, String.utf8Len_append]

theorem strRepeat_utf8ByteSize (s : String) :
    ∀ n, (strRepeat s n).utf8ByteSize = n * s.utf8ByteSize := by
  intro n
  induction n with
  | zero => rw [Nat.zero_mul]; rfl
  | succ m ih =>
    show (s ++ strRepeat s m).utf8ByteSize = _
    rw [utf8ByteSize_append, ih]
    ring

theorem upload_chunk_pattern_size : upload_chunk_pattern.utf8ByteSize = 64 := by
  decide

theorem request_chunk_len_eq : request_chunk_len = 65536 := by
  show (strRepeat upload_chunk_pattern 1024).utf8ByteSize = 65536
  rw [strRepeat_utf8ByteSize, upload_chunk_pattern_size]

end BimCore
namespace BimCore

theorem download_loop_traceOk (flag io : Nat → Bool) (times : Nat → Nat)
    (ck ds : Nat) (hp path : String) :
    ∀ fuel p i r dc c,
      DlTraceOk path hp times ck ds
        (download_loop flag io times ck ds hp path fuel p i r dc c).1 := by
  intro fuel
  induction fuel with
  | zero => intro p i r dc c; exact DlTraceOk.nil
  | succ f ih =>
    intro p i r dc c
    simp only [download_loop]
    split
    · exact DlTraceOk.nil
    · split
      · split
        · exact DlTraceOk.head r _ (ih (p + 1) (i + 1) (r + 1) 0 c)
        · exact DlTraceOk.fail
      · split
        · exact DlTraceOk.chunk _ (ih (p + 1) (i + 1) r (dc + 65536) (c + 65536))
        · exact DlTraceOk.fail

theorem upload_loop_traceOk (flag io : Nat → Bool) (times : Nat → Nat)
    (ds : Nat) (hp path : String) :
    ∀ fuel p i r dc c,
      UlTraceOk path hp times ds
        (upload_loop flag io times ds hp path fuel p i r dc c).1 := by
  intro fuel
  induction fuel with
  | zero => intro p i r dc c; exact UlTraceOk.nil
  | succ f ih =>
    intro p i r dc c
    simp only [upload_loop]
    split
    · exact UlTraceOk.nil
    · split
      · split
        · exact UlTraceOk.head r _ (ih (p + 1) (i + 1) (r + 1) 0 _)
        · exact UlTraceOk.fail
      · split
        · exact UlTraceOk.chunk _ (ih (p + 1) (i + 1) r (dc + 65536) (c + 65536))
        · exact UlTraceOk.fail

theorem download_loop_counter (flag io : Nat → Bool) (times : Nat → Nat)
    (ck ds : Nat) (hp path : String) :
    ∀ fuel p i r dc c,
      (download_loop flag io times ck ds hp path fuel p i r dc c).2.1 =
        applyEvents c (download_loop flag io times ck ds hp path fuel p i r dc c).1 := by
  intro fuel
  induction fuel with
  | zero => intro p i r dc c; rfl
  | succ f ih =>
    intro p i r dc c
    by_cases hf : flag p
    · simp [download_loop, hf, applyEvents]
    · by_cases hd : ds ≤ dc
      · by_cases hio : io i
        · simp [download_loop, hf, hd, hio, applyEvents, ih]
        · simp [download_loop, hf, hd, hio, applyEvents]
      · by_cases hio : io i
        · simp [download_loop, hf, hd, hio, applyEvents, ih]
        · simp [download_loop, hf, hd, hio, applyEvents]

theorem upload_loop_counter (flag io : Nat → Bool) (times : Nat → Nat)
    (ds : Nat) (hp path : String) :
    ∀ fuel p i r dc c,
      (upload_loop flag io times ds hp path fuel p i r dc c).2.1 =
        applyEvents c (upload_loop flag io times ds hp path fuel p i r dc c).1 := by
  intro fuel
  induction fuel with
  | zero => intro p i r dc c; rfl
  | succ f ih =>
    intro p i r dc c
    by_cases hf : flag p
    · simp [upload_loop, hf, applyEvents]
    · by_cases hd : ds ≤ dc
      · by_cases hio : io i
        · simp [upload_loop, hf, hd, hio, applyEvents, ih]
        · simp [upload_loop, hf, hd, hio, applyEvents]
      · by_cases hio : io i
        · simp [upload_loop, hf, hd, hio, applyEvents, ih]
        · simp [upload_loop, hf, hd, hio, applyEvents]

theorem download_loop_ioError_last (flag io : Nat → Bool) (times : Nat → Nat)
    (ck ds : Nat) (hp path : String) :
    ∀ fuel p i r dc c t1 t2,
      (download_loop flag io times ck ds hp path fuel p i r dc c).1 =
        t1 ++ .ioError :: t2 →
      t2 = [] ∧
        (download_loop flag io times ck ds hp path fuel p i r dc c).2.2 =
          ExitKind.ioFail := by
  intro fuel
  induction fuel with
  | zero =>
    intro p i r dc c t1 t2 h
    exact absurd h (by cases t1 <;> simp [download_loop])
  | succ f ih =>
    intro p i r dc c t1 t2 h
    by_cases hf : flag p
    · simp [download_loop, hf] at h
    · by_cases hd : ds ≤ dc
      · by_cases hio : io i
        · simp only [download_loop, hf, hd, hio] at h ⊢
          simp only [if_true, if_false] at h ⊢
          rcases cons_eq_append_cons _ _ _ _ _ h with ⟨_, he, _⟩ | ⟨t1', _, h2⟩
          · exact Event.noConfusion he
          · rcases cons_eq_append_cons _ _ _ _ _ h2 with ⟨_, he, _⟩ | ⟨t1'', _, h3⟩
            · exact Event.noConfusion he
            · exact ih (p + 1) (i + 1) (r + 1) 0 c t1'' t2 h3
        · simp only [download_loop, hf, hd, hio] at h ⊢
          simp only [if_true, if_false] at h ⊢
          rcases cons_eq_append_cons _ _ _ _ _ h with ⟨_, _, ht⟩ | ⟨t1', _, h2⟩
          · exact ⟨ht.symm, rfl⟩
          · exact absurd h2 (by cases t1' <;> simp)
      · by_cases hio : io i
        · simp only [download_loop, hf, hd, hio] at h ⊢
          simp only [if_true, if_false] at h ⊢
          rcases cons_eq_append_cons _ _ _ _ _ h with ⟨_, he, _⟩ | ⟨t1', _, h2⟩
          · exact Event.noConfusion he
          · rcases cons_eq_append_cons _ _ _ _ _ h2 with ⟨_, he, _⟩ | ⟨t1'', _, h3⟩
            · exact Event.noConfusion he
            · exact ih (p + 1) (i + 1) r (dc + 65536) (c + 65536) t1'' t2 h3
        · simp only [download_loop, hf, hd, hio] at h ⊢
          simp only [if_true, if_false] at h ⊢
          rcases cons_eq_append_cons _ _ _ _ _ h with ⟨_, _, ht⟩ | ⟨t1', _, h2⟩
          · exact ⟨ht.symm, rfl⟩
          · exact absurd h2 (by cases t1' <;> simp)

end BimCore
namespace BimCore

theorem upload_loop_ioError_last (flag io : Nat → Bool) (times : Nat → Nat)
    (ds : Nat) (hp path : String) :
    ∀ fuel p i r dc c t1 t2,
      (upload_loop flag io times ds hp path fuel p i r dc c).1 =
        t1 ++ .ioError :: t2 →
      t2 = [] ∧
        (upload_loop flag io times ds hp path fuel p i r dc c).2.2 =
          ExitKind.ioFail := by
  intro fuel
  induction fuel with
  | zero =>
    intro p i r dc c t1 t2 h
    exact absurd h (by cases t1 <;> simp [upload_loop])
  | succ f ih =>
    intro p i r dc c t1 t2 h
    by_cases hf : flag p
    · simp [upload_loop, hf] at h
    · by_cases hd : ds ≤ dc
      · by_cases hio : io i
        · simp only [upload_loop, hf, hd, hio] at h ⊢
          simp only [if_true, if_false] at h ⊢
          rcases cons_eq_append_cons _ _ _ _ _ h with ⟨_, he, _⟩ | ⟨t1', _, h2⟩
          · exact Event.noConfusion he
          · rcases cons_eq_append_cons _ _ _ _ _ h2 with ⟨_, he, _⟩ | ⟨t1'', _, h3⟩
            · exact Event.noConfusion he
            · rcases cons_eq_append_cons _ _ _ _ _ h3 with ⟨_, he, _⟩ | ⟨t1c, _, h4⟩
              · exact Event.noConfusion he
              · exact ih (p + 1) (i + 1) (r + 1) 0 _ t1c t2 h4
        · simp only [upload_loop, hf, hd, hio] at h ⊢
          simp only [if_true, if_false] at h ⊢
          rcases cons_eq_append_cons _ _ _ _ _ h with ⟨_, _, ht⟩ | ⟨t1', _, h2⟩
          · exact ⟨ht.symm, rfl⟩
          · exact absurd h2 (by cases t1' <;> simp)
      · by_cases hio : io i
        · simp only [upload_loop, hf, hd, hio] at h ⊢
          simp only [if_true, if_false] at h ⊢
          rcases cons_eq_append_cons _ _ _ _ _ h with ⟨_, he, _⟩ | ⟨t1', _, h2⟩
          · exact Event.noConfusion he
          · rcases cons_eq_append_cons _ _ _ _ _ h2 with ⟨_, he, _⟩ | ⟨t1'', _, h3⟩
            · exact Event.noConfusion he
            · exact ih (p + 1) (i + 1) r (dc + 65536) (c + 65536) t1'' t2 h3
        · simp only [upload_loop, hf, hd, hio] at h ⊢
          simp only [if_true, if_false] at h ⊢
          rcases cons_eq_append_cons _ _ _ _ _ h with ⟨_, _, ht⟩ | ⟨t1', _, h2⟩
          · exact ⟨ht.symm, rfl⟩
          · exact absurd h2 (by cases t1' <;> simp)

theorem upload_loop_payload (flag io : Nat → Bool) (times : Nat → Nat)
    (ds : Nat) (hp path : String) (hds : 65536 ∣ ds) :
    ∀ fuel p i r dc c, dc ≤ ds → 65536 ∣ dc →
      preHeadPayload (upload_loop flag io times ds hp path fuel p i r dc c).1 + dc ≤ ds ∧
      (hasHead (upload_loop flag io times ds hp path fuel p i r dc c).1 = true →
        preHeadPayload (upload_loop flag io times ds hp path fuel p i r dc c).1 + dc = ds) := by
  intro fuel
  induction fuel with
  | zero =>
    intro p i r dc c hle _
    exact ⟨by simpa [upload_loop, preHeadPayload] using hle, by simp [upload_loop, hasHead]⟩
  | succ f ih =>
    intro p i r dc c hle hdvd
    by_cases hf : flag p
    · simp only [upload_loop, hf, if_true]
      exact ⟨by simpa [preHeadPayload] using hle, by simp [hasHead]⟩
    · by_cases hd : ds ≤ dc
      · have hdc : dc = ds := Nat.le_antisymm hle hd
        by_cases hio : io i
        · simp only [upload_loop, hf, hd, hio, if_true, if_false]
          constructor
          · simpa [preHeadPayload] using hle
          · intro _
            simp [preHeadPayload, hdc]
        · simp only [upload_loop, hf, hd, hio, if_true, if_false]
          exact ⟨by simpa [preHeadPayload] using hle, by simp [hasHead]⟩
      · by_cases hio : io i
        · have hstep : dc + 65536 ≤ ds := by
            rcases hds with ⟨b, rfl⟩
            rcases hdvd with ⟨a, rfl⟩
            have : a < b := by
              by_contra hab
              exact hd (Nat.mul_le_mul_left 65536 (Nat.le_of_not_lt (by omega)))
            calc 65536 * a + 65536 = 65536 * (a + 1) := by ring
              _ ≤ 65536 * b := Nat.mul_le_mul_left 65536 (by omega)
          have hdvd' : (65536 : Nat) ∣ dc + 65536 := by
            exact Nat.dvd_add hdvd (Nat.dvd_refl 65536)
          have hrec := ih (p + 1) (i + 1) r (dc + 65536) (c + 65536) hstep hdvd'
          simp only [upload_loop, hf, hd, hio, if_true, if_false]
          simp only [preHeadPayload, hasHead, request_chunk_len_eq]
          constructor
          · omega
          · intro hh
            have := hrec.2 hh
            omega
        · simp only [upload_loop, hf, hd, hio, if_true, if_false]
          exact ⟨by simpa [preHeadPayload] using hle, by simp [hasHead]⟩

end BimCore
namespace BimCore

theorem chunk_step_le (ds dc : Nat) (hds : 65536 ∣ ds) (hdvd : 65536 ∣ dc)
    (hd : ¬ ds ≤ dc) : dc + 65536 ≤ ds := by
  rcases hds with ⟨b, rfl⟩
  rcases hdvd with ⟨a, rfl⟩
  have hab : a < b := by
    by_contra h
    exact hd (Nat.mul_le_mul_left 65536 (by omega))
  calc 65536 * a + 65536 = 65536 * (a + 1) := by ring
    _ ≤ 65536 * b := Nat.mul_le_mul_left 65536 (by omega)

theorem upload_loop_segments (flag io : Nat → Bool) (times : Nat → Nat)
    (ds : Nat) (hp path : String) (hds : 65536 ∣ ds) :
    ∀ fuel p i r dc c, dc ≤ ds → 65536 ∣ dc →
      ∀ t1 h t2,
        (upload_loop flag io times ds hp path fuel p i r dc c).1 =
          t1 ++ .sendHead h :: t2 →
        preHeadPayload t2 ≤ ds ∧
          (hasHead t2 = true → preHeadPayload t2 = ds) := by
  intro fuel
  induction fuel with
  | zero =>
    intro p i r dc c _ _ t1 h t2 heq
    exact absurd heq (by cases t1 <;> simp [upload_loop])
  | succ f ih =>
    intro p i r dc c hle hdvd t1 h t2 heq
    by_cases hf : flag p
    · simp [upload_loop, hf] at heq
    · by_cases hd : ds ≤ dc
      · by_cases hio : io i
        · simp only [upload_loop, hf, hd, hio, if_true, if_false] at heq
          rcases cons_eq_append_cons _ _ _ _ _ heq with ⟨_, _, ht2⟩ | ⟨t1', _, h2⟩
          · have hrec := upload_loop_payload flag io times ds hp path hds f
              (p + 1) (i + 1) (r + 1) 0
              (c + (upload_request_head path (times r) hp ds).utf8ByteSize)
              (Nat.zero_le ds) (dvd_zero 65536)
            constructor
            · rw [← ht2]
              simp only [preHeadPayload]
              omega
            · rw [← ht2]
              simp only [preHeadPayload, hasHead]
              intro hh
              have := hrec.2 hh
              omega
          · rcases cons_eq_append_cons _ _ _ _ _ h2 with ⟨_, he, _⟩ | ⟨t1'', _, h3⟩
            · exact Event.noConfusion he
            · rcases cons_eq_append_cons _ _ _ _ _ h3 with ⟨_, he, _⟩ | ⟨t1c, _, h4⟩
              · exact Event.noConfusion he
              · exact ih (p + 1) (i + 1) (r + 1) 0 _ (Nat.zero_le ds)
                  (dvd_zero 65536) t1c h t2 h4
        · simp only [upload_loop, hf, hd, hio, if_true, if_false] at heq
          rcases cons_eq_append_cons _ _ _ _ _ heq with ⟨_, he, _⟩ | ⟨t1', _, h2⟩
          · exact Event.noConfusion he
          · exact absurd h2 (by cases t1' <;> simp)
      · by_cases hio : io i
        · simp only [upload_loop, hf, hd, hio, if_true, if_false] at heq
          rcases cons_eq_append_cons _ _ _ _ _ heq with ⟨_, he, _⟩ | ⟨t1', _, h2⟩
          · exact Event.noConfusion he
          · rcases cons_eq_append_cons _ _ _ _ _ h2 with ⟨_, he, _⟩ | ⟨t1'', _, h3⟩
            · exact Event.noConfusion he
            · exact ih (p + 1) (i + 1) r (dc + 65536) (c + 65536)
                (chunk_step_le ds dc hds hdvd hd)
                (Nat.dvd_add hdvd (Nat.dvd_refl 65536)) t1'' h t2 h3
        · simp only [upload_loop, hf, hd, hio, if_true, if_false] at heq
          rcases cons_eq_append_cons _ _ _ _ _ heq with ⟨_, he, _⟩ | ⟨t1', _, h2⟩
          · exact Event.noConfusion he
          · exact absurd h2 (by cases t1' <;> simp)

theorem DlTraceOk.addCounter_split {path hp : String} {times : Nat → Nat}
    {ck ds : Nat} {t : List Event} (hder : DlTraceOk path hp times ck ds t) :
    ∀ t1 n t2, t = t1 ++ .addCounter n :: t2 →
      n = 65536 ∧ ∃ t0, t1 = t0 ++ [.readChunk 65536] := by
  induction hder with
  | nil => intro t1 n t2 h; exact absurd h (by cases t1 <;> simp)
  | fail =>
    intro t1 n t2 h
    rcases cons_eq_append_cons _ _ _ _ _ h with ⟨_, he, _⟩ | ⟨t1', _, h2⟩
    · exact Event.noConfusion he
    · exact absurd h2 (by cases t1' <;> simp)
  | head k t ht ih =>
    intro t1 n t2 h
    rcases cons_eq_append_cons _ _ _ _ _ h with ⟨_, he, _⟩ | ⟨t1', ht1, h2⟩
    · exact Event.noConfusion he
    · rcases cons_eq_append_cons _ _ _ _ _ h2 with ⟨_, he, _⟩ | ⟨t1'', ht1', h3⟩
      · exact Event.noConfusion he
      · obtain ⟨hn, t0, ht0⟩ := ih t1'' n t2 h3
        exact ⟨hn, .sendHead (download_request_head path (times k) ck ds hp) ::
          .localReset :: t0, by simp [ht1, ht1', ht0]⟩
  | chunk t ht ih =>
    intro t1 n t2 h
    rcases cons_eq_append_cons _ _ _ _ _ h with ⟨_, he, _⟩ | ⟨t1', ht1, h2⟩
    · exact Event.noConfusion he
    · rcases cons_eq_append_cons _ _ _ _ _ h2 with ⟨ht1', he, _⟩ | ⟨t1'', ht1', h3⟩
      · injection he with hn
        exact ⟨hn.symm, [], by simp [ht1, ht1']⟩
      · obtain ⟨hn, t0, ht0⟩ := ih t1'' n t2 h3
        exact ⟨hn, .readChunk 65536 :: .addCounter 65536 :: t0,
          by simp [ht1, ht1', ht0]⟩

theorem DlTraceOk.sendHeadForm {path hp : String} {times : Nat → Nat}
    {ck ds : Nat} {t : List Event} (hder : DlTraceOk path hp times ck ds t) :
    ∀ t1 h t2, t = t1 ++ .sendHead h :: t2 →
      ∃ k, h = download_request_head path (times k) ck ds hp := by
  induction hder with
  | nil => intro t1 h t2 heq; exact absurd heq (by cases t1 <;> simp)
  | fail =>
    intro t1 h t2 heq
    rcases cons_eq_append_cons _ _ _ _ _ heq with ⟨_, he, _⟩ | ⟨t1', _, h2⟩
    · exact Event.noConfusion he
    · exact absurd h2 (by cases t1' <;> simp)
  | head k t ht ih =>
    intro t1 h t2 heq
    rcases cons_eq_append_cons _ _ _ _ _ heq with ⟨_, he, _⟩ | ⟨t1', _, h2⟩
    · injection he with hh
      exact ⟨k, hh.symm⟩
    · rcases cons_eq_append_cons _ _ _ _ _ h2 with ⟨_, he, _⟩ | ⟨t1'', _, h3⟩
      · exact Event.noConfusion he
      · exact ih t1'' h t2 h3
  | chunk t ht ih =>
    intro t1 h t2 heq
    rcases cons_eq_append_cons _ _ _ _ _ heq with ⟨_, he, _⟩ | ⟨t1', _, h2⟩
    · exact Event.noConfusion he
    · rcases cons_eq_append_cons _ _ _ _ _ h2 with ⟨_, he, _⟩ | ⟨t1'', _, h3⟩
      · exact Event.noConfusion he
      · exact ih t1'' h t2 h3

theorem DlTraceOk.counts {path hp : String} {times : Nat → Nat}
    {ck ds : Nat} {t : List Event} (hder : DlTraceOk path hp times ck ds t) :
    countAdds t = countReads t := by
  induction hder with
  | nil => rfl
  | fail => rfl
  | head k t ht ih => simpa [countAdds, countReads] using ih
  | chunk t ht ih => simpa [countAdds, countReads] using ih

theorem DlTraceOk.applyEvents_eq {path hp : String} {times : Nat → Nat}
    {ck ds : Nat} {t : List Event} (hder : DlTraceOk path hp times ck ds t) :
    ∀ c, applyEvents c t = c + 65536 * countAdds t := by
  induction hder with
  | nil => intro c; rfl
  | fail => intro c; rfl
  | head k t ht ih =>
    intro c
    simp only [applyEvents, countAdds]
    exact ih c
  | chunk t ht ih =>
    intro c
    simp only [applyEvents, countAdds]
    rw [ih (c + 65536)]
    ring

theorem UlTraceOk.sendHeadParts {path hp : String} {times : Nat → Nat}
    {ds : Nat} {t : List Event} (hder : UlTraceOk path hp times ds t) :
    ∀ t1 h t2, t = t1 ++ .sendHead h :: t2 →
      (∃ k, h = upload_request_head path (times k) hp ds) ∧
      ∃ t3, t2 = .addCounter h.utf8ByteSize :: .localReset :: t3 := by
  induction hder with
  | nil => intro t1 h t2 heq; exact absurd heq (by cases t1 <;> simp)
  | fail =>
    intro t1 h t2 heq
    rcases cons_eq_append_cons _ _ _ _ _ heq with ⟨_, he, _⟩ | ⟨t1', _, h2⟩
    · exact Event.noConfusion he
    · exact absurd h2 (by cases t1' <;> simp)
  | head k t ht ih =>
    intro t1 h t2 heq
    rcases cons_eq_append_cons _ _ _ _ _ heq with ⟨_, he, ht2⟩ | ⟨t1', _, h2⟩
    · injection he with hh
      subst hh
      exact ⟨⟨k, rfl⟩, t, ht2.symm⟩
    · rcases cons_eq_append_cons _ _ _ _ _ h2 with ⟨_, he, _⟩ | ⟨t1'', _, h3⟩
      · exact Event.noConfusion he
      · rcases cons_eq_append_cons _ _ _ _ _ h3 with ⟨_, he, _⟩ | ⟨t1c, _, h4⟩
        · exact Event.noConfusion he
        · exact ih t1c h t2 h4
  | chunk t ht ih =>
    intro t1 h t2 heq
    rcases cons_eq_append_cons _ _ _ _ _ heq with ⟨_, he, _⟩ | ⟨t1', _, h2⟩
    · exact Event.noConfusion he
    · rcases cons_eq_append_cons _ _ _ _ _ h2 with ⟨_, he, _⟩ | ⟨t1'', _, h3⟩
      · exact Event.noConfusion he
      · exact ih t1'' h t2 h3

theorem UlTraceOk.sendChunk_split {path hp : String} {times : Nat → Nat}
    {ds : Nat} {t : List Event} (hder : UlTraceOk path hp times ds t) :
    ∀ t1 n t2, t = t1 ++ .sendChunk n :: t2 →
      n = request_chunk_len ∧ ∃ t3, t2 = .addCounter 65536 :: t3 := by
  induction hder with
  | nil => intro t1 n t2 heq; exact absurd heq (by cases t1 <;> simp)
  | fail =>
    intro t1 n t2 heq
    rcases cons_eq_append_cons _ _ _ _ _ heq with ⟨_, he, _⟩ | ⟨t1', _, h2⟩
    · exact Event.noConfusion he
    · exact absurd h2 (by cases t1' <;> simp)
  | head k t ht ih =>
    intro t1 n t2 heq
    rcases cons_eq_append_cons _ _ _ _ _ heq with ⟨_, he, _⟩ | ⟨t1', _, h2⟩
    · exact Event.noConfusion he
    · rcases cons_eq_append_cons _ _ _ _ _ h2 with ⟨_, he, _⟩ | ⟨t1'', _, h3⟩
      · exact Event.noConfusion he
      · rcases cons_eq_append_cons _ _ _ _ _ h3 with ⟨_, he, _⟩ | ⟨t1c, _, h4⟩
        · exact Event.noConfusion he
        · exact ih t1c n t2 h4
  | chunk t ht ih =>
    intro t1 n t2 heq
    rcases cons_eq_append_cons _ _ _ _ _ heq with ⟨_, he, ht2⟩ | ⟨t1', _, h2⟩
    · injection he with hn
      exact ⟨hn.symm, t, ht2.symm⟩
    · rcases cons_eq_append_cons _ _ _ _ _ h2 with ⟨_, he, _⟩ | ⟨t1'', _, h3⟩
      · exact Event.noConfusion he
      · exact ih t1'' n t2 h3

theorem UlTraceOk.applyEvents_le {path hp : String} {times : Nat → Nat}
    {ds : Nat} {t : List Event} (hder : UlTraceOk path hp times ds t) :
    ∀ c, applyEvents c t = c + (applyEvents 0 t) := by
  induction hder with
  | nil => intro c; rfl
  | fail => intro c; rfl
  | head k t ht ih =>
    intro c
    simp only [applyEvents]
    rw [ih (c + (upload_request_head path (times k) hp ds).utf8ByteSize),
      ih (0 + (upload_request_head path (times k) hp ds).utf8ByteSize)]
    omega
  | chunk t ht ih =>
    intro c
    simp only [applyEvents]
    rw [ih (c + 65536), ih (0 + 65536)]
    omega

end BimCore
namespace BimCore

theorem request_http_download_ok (connect : Nat → Bool) (ssl tlsOk : Bool)
    (cc : Bool) (flag io : Nat → Bool) (times : Nat → Nat) (host : String)
    (port : Nat) (path : String) (fuel c0 : Nat) (b : Bool)
    (hok : (make_connection connect ssl tlsOk).outcome = .ok b) :
    request_http_download connect ssl tlsOk cc flag io times host port path
        fuel c0 =
      ((Event.startWait ::
          (download_loop flag io times (if cc then 15000 else 50)
            ((if cc then 15000 else 50) * 1024 * 1024) (host_port host port)
            path fuel 0 0 0 ((if cc then 15000 else 50) * 1024 * 1024) c0).1 ++
          (if (download_loop flag io times (if cc then 15000 else 50)
                ((if cc then 15000 else 50) * 1024 * 1024)
                (host_port host port) path fuel 0 0 0
                ((if cc then 15000 else 50) * 1024 * 1024) c0).2.2 =
              ExitKind.fuelOut then []
            else [Event.endWait])),
        (download_loop flag io times (if cc then 15000 else 50)
          ((if cc then 15000 else 50) * 1024 * 1024) (host_port host port)
          path fuel 0 0 0 ((if cc then 15000 else 50) * 1024 * 1024) c0).2.1) := by
  simp only [request_http_download, hok]

theorem request_http_upload_ok (connect : Nat → Bool) (ssl tlsOk : Bool)
    (cc : Bool) (flag io : Nat → Bool) (times : Nat → Nat) (host : String)
    (port : Nat) (path : String) (fuel c0 : Nat) (b : Bool)
    (hok : (make_connection connect ssl tlsOk).outcome = .ok b) :
    request_http_upload connect ssl tlsOk cc flag io times host port path
        fuel c0 =
      ((Event.startWait ::
          (upload_loop flag io times ((if cc then 15000 else 50) * 1024 * 1024)
            (host_port host port) path fuel 0 0 0
            ((if cc then 15000 else 50) * 1024 * 1024) c0).1 ++
          (if (upload_loop flag io times
                ((if cc then 15000 else 50) * 1024 * 1024)
                (host_port host port) path fuel 0 0 0
                ((if cc then 15000 else 50) * 1024 * 1024) c0).2.2 =
              ExitKind.fuelOut then []
            else [Event.endWait])),
        (upload_loop flag io times ((if cc then 15000 else 50) * 1024 * 1024)
          (host_port host port) path fuel 0 0 0
          ((if cc then 15000 else 50) * 1024 * 1024) c0).2.1) := by
  simp only [request_http_upload, hok]

end BimCore
namespace BimCore

/-- Claim C4 (amended).  `make_connection` performs at most 3 timed connect
attempts with a fixed 3-second (3,000,000 µs) timeout and no delay between
failed attempts; the first successful connect short-circuits the remaining
retries and — unless encryption is requested and negotiation setup fails, in
which case the thread panics — returns the stream; the error string is
returned exactly when all 3 attempts fail. -/
theorem make_connection_retry_spec (connect : Nat → Bool) (ssl tlsOk : Bool) :
    connectTimeoutMicros = 3000000 ∧
    connectRetryCount = 3 ∧
    (make_connection connect ssl tlsOk).attempts ≤ 3 ∧
    (∀ i, i < 3 → connect i = true → (∀ j, j < i → connect j = false) →
      (make_connection connect ssl tlsOk).attempts = i + 1 ∧
      ((ssl = false ∨ tlsOk = true) →
        (make_connection connect ssl tlsOk).outcome = .ok ssl)) ∧
    (∀ msg, (make_connection connect ssl tlsOk).outcome = .err msg ↔
      (msg = "连接失败" ∧ ∀ j, j < 3 → connect j = false)) := by
  refine ⟨rfl, rfl, ?_, ?_, ?_⟩
  · rw [make_connection_eq]
    split_ifs <;> simp [tcpEstablish_attempts]
  · intro i hi hc hb
    interval_cases i
    · rw [make_connection_eq]
      constructor
      · simp [hc, tcpEstablish_attempts]
      · rintro (hs | ht)
        · subst hs; simp [hc, tcpEstablish]
        · cases ssl <;> simp [hc, tcpEstablish, ht]
    · have h0 : connect 0 = false := hb 0 (by omega)
      rw [make_connection_eq]
      constructor
      · simp [hc, h0, tcpEstablish_attempts]
      · rintro (hs | ht)
        · subst hs; simp [hc, h0, tcpEstablish]
        · cases ssl <;> simp [hc, h0, tcpEstablish, ht]
    · have h0 : connect 0 = false := hb 0 (by omega)
      have h1 : connect 1 = false := hb 1 (by omega)
      rw [make_connection_eq]
      constructor
      · simp [hc, h0, h1, tcpEstablish_attempts]
      · rintro (hs | ht)
        · subst hs; simp [hc, h0, h1, tcpEstablish]
        · cases ssl <;> simp [hc, h0, h1, tcpEstablish, ht]
  · intro msg
    rw [make_connection_eq, forall_lt_three]
    by_cases c0 : connect 0 <;> by_cases c1 : connect 1 <;>
      by_cases c2 : connect 2 <;>
      simp [c0, c1, c2, tcpEstablish, eq_comm] <;> split_ifs <;> simp

/-- Witness for Claim C4's theorem: a target refusing the first two attempts
and accepting the third yields a plain stream after exactly 3 attempts, and
an always-refusing target yields the error after exactly 3 attempts. -/
theorem make_connection_retry_witness :
    (make_connection (fun i => decide (i = 2)) false true).attempts = 3 ∧
    (make_connection (fun i => decide (i = 2)) false true).outcome = .ok false ∧
    (make_connection (fun _ => false) false true).outcome = .err "连接失败" := by
  have h := make_connection_retry_spec (fun i => decide (i = 2)) false true
  have h2 := make_connection_retry_spec (fun _ => false) false true
  have hb : ∀ j, j < 2 → (fun i => decide (i = 2)) j = false := by
    intro j hj
    interval_cases j <;> rfl
  refine ⟨(h.2.2.2.1 2 (by omega) (by simp) hb).1, ?_, ?_⟩
  · exact (h.2.2.2.1 2 (by omega) (by simp) hb).2 (Or.inl rfl)
  · exact (h2.2.2.2.2 "连接失败").mpr ⟨rfl, fun j _ => rfl⟩

/-- Counterexample to Claim C4 as stated: with encryption requested and TLS
setup failing, the first successful connect does short-circuit the retries
(one attempt) but the call panics instead of returning the stream. -/
theorem make_connection_retry_counterexample :
    (make_connection (fun _ => true) true false).attempts = 1 ∧
    (make_connection (fun _ => true) true false).outcome = .panicked ∧
    (∀ b, (make_connection (fun _ => true) true false).outcome ≠ .ok b) ∧
    (∀ m, (make_connection (fun _ => true) true false).outcome ≠ .err m) := by
  refine ⟨rfl, rfl, ?_, ?_⟩ <;> intro x hx <;>
    rw [show (make_connection (fun _ => true) true false).outcome = .panicked
      from rfl] at hx <;> simp at hx

/-- Claim C9 (amended).  `make_connection` always terminates; whenever
encryption is off or negotiation setup succeeds, it yields either an
established stream or a descriptive failure string; an encryption-negotiation
setup failure (bad hostname, handshake-configuration failure) after a
successful connect aborts the thread by panic instead of being returned as a
failure of that establishment attempt. -/
theorem make_connection_totality_spec (connect : Nat → Bool) (ssl tlsOk : Bool) :
    ((ssl = false ∨ tlsOk = true) →
      (∃ b, (make_connection connect ssl tlsOk).outcome = .ok b) ∨
      (∃ m, (make_connection connect ssl tlsOk).outcome = .err m)) ∧
    ((make_connection connect ssl tlsOk).outcome = .panicked ↔
      (ssl = true ∧ tlsOk = false ∧ ∃ i, i < 3 ∧ connect i = true)) := by
  rw [make_connection_eq]
  cases ssl <;> cases tlsOk <;>
    by_cases c0 : connect 0 <;> by_cases c1 : connect 1 <;>
    by_cases c2 : connect 2 <;>
    simp [tcpEstablish, exists_lt_three, c0, c1, c2]

/-- Witness for Claim C9's theorem at a concrete input. -/
theorem make_connection_totality_witness :
    (∃ b, (make_connection (fun _ => false) false false).outcome = .ok b) ∨
    (∃ m, (make_connection (fun _ => false) false false).outcome = .err m) :=
  (make_connection_totality_spec (fun _ => false) false false).1 (Or.inl rfl)

/-- Counterexample to Claim C9 as stated: a TLS-setup failure does not
surface as a returned failure — the result is a panic, neither a stream nor
an error message. -/
theorem make_connection_totality_counterexample :
    (make_connection (fun i => decide (i = 0)) true false).outcome = .panicked ∧
    (∀ b, (make_connection (fun i => decide (i = 0)) true false).outcome ≠ .ok b) ∧
    (∀ m, (make_connection (fun i => decide (i = 0)) true false).outcome ≠ .err m) := by
  refine ⟨rfl, ?_, ?_⟩ <;> intro x hx <;>
    rw [show (make_connection (fun i => decide (i = 0)) true false).outcome =
      .panicked from rfl] at hx <;> simp at hx

/-- Claim C5.  The latency probe makes a single timed connect attempt with a
1-second (1,000,000 µs) timeout and no retry; on failure it returns exactly
the sentinel `Ok 1_000_000`; on success it returns the measured elapsed time,
which — under the timed-connect contract that a connect succeeding within a
1,000,000 µs timeout measures below it (hypothesis `htimed`) — is less than
1,000,000 µs. -/
theorem request_tcp_ping_spec (connectOk : Bool) (elapsed : Nat)
    (htimed : connectOk = true → elapsed < pingTimeoutMicros) :
    pingTimeoutMicros = 1000000 ∧
    (connectOk = false → request_tcp_ping connectOk elapsed = .ok 1000000) ∧
    (connectOk = true →
      request_tcp_ping connectOk elapsed = .ok elapsed ∧ elapsed < 1000000) := by
  refine ⟨rfl, ?_, ?_⟩
  · intro h
    simp [request_tcp_ping, h]
  · intro h
    exact ⟨by simp [request_tcp_ping, h], htimed h⟩

/-- Witness for Claim C5's theorem: an unreachable target yields the
sentinel, a reachable one measuring 1234 µs yields 1234. -/
theorem request_tcp_ping_spec_witness :
    request_tcp_ping false 777 = .ok 1000000 ∧
    request_tcp_ping true 1234 = .ok 1234 := by
  refine ⟨(request_tcp_ping_spec false 777 (by simp)).2.1 rfl, ?_⟩
  exact ((request_tcp_ping_spec true 1234 (fun _ => by decide)).2.2 rfl).1

/-- Claim C10.  `request_tcp_ping` never returns an error: for every connect
outcome and measured time, the result is `Ok`. -/
theorem request_tcp_ping_never_err (connectOk : Bool) (elapsed : Nat) :
    (∃ v, request_tcp_ping connectOk elapsed = .ok v) ∧
    ∀ m, request_tcp_ping connectOk elapsed ≠ .error m := by
  refine ⟨⟨if connectOk then elapsed else 1000000, rfl⟩, ?_⟩
  intro m h
  simp [request_tcp_ping] at h

end BimCore
namespace BimCore

theorem endTail_cases (P : Prop) [Decidable P] :
    (if P then ([] : List Event) else [.endWait]) = [] ∨
    (if P then ([] : List Event) else [.endWait]) = [.endWait] := by
  split
  · exact Or.inl rfl
  · exact Or.inr rfl

theorem wrapped_split (x : Event) (l tail t1 t2 : List Event)
    (hx1 : x ≠ .startWait) (hx2 : x ∉ tail)
    (h : Event.startWait :: l ++ tail = t1 ++ x :: t2) :
    ∃ u v, l = u ++ x :: v ∧ t1 = .startWait :: u ∧ t2 = v ++ tail := by
  rcases cons_eq_append_cons _ _ _ _ _ h with ⟨_, he, _⟩ | ⟨t1', ht1, h2⟩
  · exact absurd he.symm hx1
  · obtain ⟨v', hl, hv⟩ := append_split_left l tail t1' t2 x hx2 h2
    exact ⟨t1', v', hl, ht1, hv⟩

/-- Claim C1.  A worker (download or upload) whose connection establishment
fails with an error still performs exactly the start-barrier wait followed by
the end-barrier wait and returns without mutating the shared counter; hence
any pool of N ≥ 1 such workers leaves the counter at its initial value 0. -/
theorem failed_connection_barriers :
    (∀ (connect : Nat → Bool) (ssl tlsOk cc : Bool) (flag io : Nat → Bool)
        (times : Nat → Nat) (host : String) (port : Nat) (path : String)
        (fuel c0 : Nat) (msg : String),
      (make_connection connect ssl tlsOk).outcome = .err msg →
      request_http_download connect ssl tlsOk cc flag io times host port path
          fuel c0 = ([.startWait, .endWait], c0) ∧
      request_http_upload connect ssl tlsOk cc flag io times host port path
          fuel c0 = ([.startWait, .endWait], c0)) ∧
    (∀ ws : List (Nat → List Event × Nat), 1 ≤ ws.length →
      (∀ w ∈ ws, ∃ (connect : Nat → Bool) (ssl tlsOk cc : Bool)
          (flag io : Nat → Bool) (times : Nat → Nat) (host : String)
          (port : Nat) (path : String) (fuel : Nat) (msg : String),
        (make_connection connect ssl tlsOk).outcome = .err msg ∧
        ((w = fun c => request_http_download connect ssl tlsOk cc flag io
            times host port path fuel c) ∨
         (w = fun c => request_http_upload connect ssl tlsOk cc flag io
            times host port path fuel c))) →
      runPool ws 0 = 0 ∧
        ∀ w ∈ ws, ∀ c, w c = ([.startWait, .endWait], c)) := by
  have hdl : ∀ (connect : Nat → Bool) (ssl tlsOk cc : Bool)
      (flag io : Nat → Bool) (times : Nat → Nat) (host : String) (port : Nat)
      (path : String) (fuel c0 : Nat) (msg : String),
      (make_connection connect ssl tlsOk).outcome = .err msg →
      request_http_download connect ssl tlsOk cc flag io times host port path
          fuel c0 = ([.startWait, .endWait], c0) := by
    intro connect ssl tlsOk cc flag io times host port path fuel c0 msg hfail
    simp [request_http_download, hfail]
  have hul : ∀ (connect : Nat → Bool) (ssl tlsOk cc : Bool)
      (flag io : Nat → Bool) (times : Nat → Nat) (host : String) (port : Nat)
      (path : String) (fuel c0 : Nat) (msg : String),
      (make_connection connect ssl tlsOk).outcome = .err msg →
      request_http_upload connect ssl tlsOk cc flag io times host port path
          fuel c0 = ([.startWait, .endWait], c0) := by
    intro connect ssl tlsOk cc flag io times host port path fuel c0 msg hfail
    simp [request_http_upload, hfail]
  have key : ∀ ws : List (Nat → List Event × Nat),
      (∀ w ∈ ws, ∀ c, w c = ([.startWait, .endWait], c)) →
      ∀ c0, runPool ws c0 = c0 := by
    intro ws
    induction ws with
    | nil => intro _ c0; rfl
    | cons w t ih =>
      intro hws c0
      show runPool t (w c0).2 = c0
      rw [hws w (List.mem_cons_self w t) c0]
      exact ih (fun x hx c => hws x (List.mem_cons_of_mem w hx) c) c0
  constructor
  · intro connect ssl tlsOk cc flag io times host port path fuel c0 msg hfail
    exact ⟨hdl connect ssl tlsOk cc flag io times host port path fuel c0 msg hfail,
      hul connect ssl tlsOk cc flag io times host port path fuel c0 msg hfail⟩
  · intro ws _ hws
    have hbeh : ∀ w ∈ ws, ∀ c, w c = ([.startWait, .endWait], c) := by
      intro w hw c
      obtain ⟨connect, ssl, tlsOk, cc, flag, io, times, host, port, path,
        fuel, msg, hfail, hcase⟩ := hws w hw
      rcases hcase with rfl | rfl
      · exact hdl connect ssl tlsOk cc flag io times host port path fuel c msg hfail
      · exact hul connect ssl tlsOk cc flag io times host port path fuel c msg hfail
    exact ⟨key ws hbeh 0, hbeh⟩

/-- Witness for Claim C1's theorem: a single download worker whose three
connect attempts all fail produces exactly the two barrier waits, leaves the
counter unchanged, and a one-worker pool of it ends with counter 0. -/
theorem failed_connection_barriers_witness :
    runPool [fun c => request_http_download (fun _ => false) false false false
      (fun _ => false) (fun _ => false) (fun _ => 0) "h" 80 "/" 0 c] 0 = 0 ∧
    request_http_download (fun _ => false) false false false (fun _ => false)
      (fun _ => false) (fun _ => 0) "h" 80 "/" 0 5 =
      ([.startWait, .endWait], 5) := by
  have h := failed_connection_barriers
  have hfail : (make_connection (fun _ => false) false false).outcome =
      .err "连接失败" := rfl
  constructor
  · refine (h.2 [fun c => request_http_download (fun _ => false) false false
      false (fun _ => false) (fun _ => false) (fun _ => 0) "h" 80 "/" 0 c]
      (by simp) ?_).1
    intro w hw
    rw [List.mem_singleton] at hw
    subst hw
    exact ⟨fun _ => false, false, false, false, fun _ => false, fun _ => false,
      fun _ => 0, "h", 80, "/", 0, "连接失败", hfail, Or.inl rfl⟩
  · exact (h.1 (fun _ => false) false false false (fun _ => false)
      (fun _ => false) (fun _ => 0) "h" 80 "/" 0 5 "连接失败" hfail).1

end BimCore
namespace BimCore

/-- Claim C2.  In a download worker whose connection was established, every
mutation of the shared counter adds exactly 65536 and occurs immediately
after a successful 64 KiB read (so the GET-head write never changes the
counter): counter increments and successful reads are in bijection, the
final counter is the initial one plus 65536 per increment, and along every
prefix of the run the counter value is non-decreasing and between its
initial and final values. -/
theorem download_counter_spec (connect : Nat → Bool) (ssl tlsOk cc : Bool)
    (flag io : Nat → Bool) (times : Nat → Nat) (host : String) (port : Nat)
    (path : String) (fuel c0 : Nat) (b : Bool)
    (hok : (make_connection connect ssl tlsOk).outcome = .ok b) :
    (∀ t1 n t2,
      (request_http_download connect ssl tlsOk cc flag io times host port
          path fuel c0).1 = t1 ++ .addCounter n :: t2 →
      n = 65536 ∧ ∃ t0, t1 = t0 ++ [.readChunk 65536]) ∧
    countAdds (request_http_download connect ssl tlsOk cc flag io times host
        port path fuel c0).1 =
      countReads (request_http_download connect ssl tlsOk cc flag io times
        host port path fuel c0).1 ∧
    (request_http_download connect ssl tlsOk cc flag io times host port path
        fuel c0).2 =
      c0 + 65536 * countAdds (request_http_download connect ssl tlsOk cc flag
        io times host port path fuel c0).1 ∧
    (∀ t1 t2,
      (request_http_download connect ssl tlsOk cc flag io times host port
          path fuel c0).1 = t1 ++ t2 →
      c0 ≤ applyEvents c0 t1 ∧
        applyEvents c0 t1 ≤ (request_http_download connect ssl tlsOk cc flag
          io times host port path fuel c0).2) := by
  have hU := request_http_download_ok connect ssl tlsOk cc flag io times host
    port path fuel c0 b hok
  set ck : Nat := if cc then 15000 else 50 with hck
  set ds : Nat := ck * 1024 * 1024 with hds
  set D := download_loop flag io times ck ds (host_port host port) path fuel
    0 0 0 ds c0 with hDdef
  set tail : List Event :=
    if D.2.2 = ExitKind.fuelOut then [] else [.endWait] with htail
  have hTr := download_loop_traceOk flag io times ck ds (host_port host port)
    path fuel 0 0 0 ds c0
  have hcnt := download_loop_counter flag io times ck ds (host_port host port)
    path fuel 0 0 0 ds c0
  rw [← hDdef] at hTr hcnt
  have htailc : tail = [] ∨ tail = [.endWait] := endTail_cases _
  have hfin : (request_http_download connect ssl tlsOk cc flag io times host
      port path fuel c0).2 = applyEvents c0 (request_http_download connect
      ssl tlsOk cc flag io times host port path fuel c0).1 := by
    rw [hU]
    show D.2.1 = applyEvents c0 ((Event.startWait :: D.1) ++ tail)
    rw [applyEvents_append]
    have h1 : applyEvents c0 (Event.startWait :: D.1) = applyEvents c0 D.1 :=
      rfl
    rw [h1]
    rcases htailc with h | h <;> rw [h]
    · show D.2.1 = applyEvents c0 D.1
      exact hcnt
    · have h2 : applyEvents (applyEvents c0 D.1) [Event.endWait] =
          applyEvents c0 D.1 := rfl
      rw [h2]
      exact hcnt
  refine ⟨?_, ?_, ?_, ?_⟩
  · intro t1 n t2 heq
    rw [hU] at heq
    obtain ⟨u, v, hl, ht1, _⟩ := wrapped_split (.addCounter n) D.1 tail t1 t2
      (by simp) (by rcases htailc with h | h <;> rw [h] <;> simp) heq
    obtain ⟨hn, t0, ht0⟩ := hTr.addCounter_split u n v hl
    exact ⟨hn, .startWait :: t0, by rw [ht1, ht0]; rfl⟩
  · rw [hU]
    show countAdds ((Event.startWait :: D.1) ++ tail) =
      countReads ((Event.startWait :: D.1) ++ tail)
    rw [countAdds_append, countReads_append]
    have h1 : countAdds (Event.startWait :: D.1) = countAdds D.1 := rfl
    have h2 : countReads (Event.startWait :: D.1) = countReads D.1 := rfl
    rw [h1, h2, hTr.counts]
    rcases htailc with h | h <;> rw [h] <;> rfl
  · have hadds : countAdds (request_http_download connect ssl tlsOk cc flag
        io times host port path fuel c0).1 = countAdds D.1 := by
      rw [hU]
      show countAdds ((Event.startWait :: D.1) ++ tail) = countAdds D.1
      rw [countAdds_append]
      have h1 : countAdds (Event.startWait :: D.1) = countAdds D.1 := rfl
      rw [h1]
      rcases htailc with h | h <;> rw [h] <;> rfl
    rw [hadds]
    have hr2 : (request_http_download connect ssl tlsOk cc flag io times host
        port path fuel c0).2 = D.2.1 := by rw [hU]
    rw [hr2, hcnt, hTr.applyEvents_eq c0]
  · intro t1 t2 heq
    constructor
    · exact le_applyEvents t1 c0
    · rw [hfin, heq, applyEvents_append]
      exact le_applyEvents t2 (applyEvents c0 t1)

/-- Witness for Claim C2's theorem: a download worker that sends one GET
head, reads two 64 KiB blocks and then observes the stop flag; its trace
decomposes at the first counter increment, which follows the first read, and
the final counter is the initial 7 plus 2 × 65536. -/
theorem download_counter_spec_witness :
    (65536 = 65536 ∧ ∃ t0, ([Event.startWait,
        .sendHead (download_request_head "/p" 5 50 52428800 (host_port "h" 80)),
        .localReset, .readChunk 65536] : List Event) =
        t0 ++ [.readChunk 65536]) ∧
    (request_http_download (fun _ => true) false false false
        (fun i => decide (3 ≤ i)) (fun _ => true) (fun _ => 5) "h" 80 "/p" 4
        7).2 = 7 + 65536 * 2 := by
  have h := download_counter_spec (fun _ => true) false false false
    (fun i => decide (3 ≤ i)) (fun _ => true) (fun _ => 5) "h" 80 "/p" 4 7
    false rfl
  constructor
  · refine h.1 [Event.startWait,
      .sendHead (download_request_head "/p" 5 50 52428800 (host_port "h" 80)),
      .localReset, .readChunk 65536] 65536
      [.readChunk 65536, .addCounter 65536, .endWait] ?_
    show (request_http_download (fun _ => true) false false false
      (fun i => decide (3 ≤ i)) (fun _ => true) (fun _ => 5) "h" 80 "/p" 4
      7).1 = _
    decide
  · have h2 := h.2.2.1
    rw [h2]
    have : countAdds (request_http_download (fun _ => true) false false false
        (fun i => decide (3 ≤ i)) (fun _ => true) (fun _ => 5) "h" 80 "/p" 4
        7).1 = 2 := by decide
    rw [this]

end BimCore
namespace BimCore

/-- Claim C6.  For either throughput worker with an established connection,
a read/write error terminates the measurement loop immediately with no
reconnect: everything in the trace after the error is exactly the end-barrier
wait, so no further shared-counter mutation occurs and the worker returns. -/
theorem io_error_terminates (connect : Nat → Bool) (ssl tlsOk cc : Bool)
    (flag io : Nat → Bool) (times : Nat → Nat) (host : String) (port : Nat)
    (path : String) (fuel c0 : Nat) (b : Bool)
    (hok : (make_connection connect ssl tlsOk).outcome = .ok b) :
    (∀ t1 t2,
      (request_http_download connect ssl tlsOk cc flag io times host port
          path fuel c0).1 = t1 ++ .ioError :: t2 →
      t2 = [.endWait] ∧ countAdds t2 = 0) ∧
    (∀ t1 t2,
      (request_http_upload connect ssl tlsOk cc flag io times host port path
          fuel c0).1 = t1 ++ .ioError :: t2 →
      t2 = [.endWait] ∧ countAdds t2 = 0) := by
  constructor
  · have hU := request_http_download_ok connect ssl tlsOk cc flag io times
      host port path fuel c0 b hok
    set ck : Nat := if cc then 15000 else 50 with hck
    set ds : Nat := ck * 1024 * 1024 with hds
    set D := download_loop flag io times ck ds (host_port host port) path
      fuel 0 0 0 ds c0 with hDdef
    set tailD : List Event :=
      if D.2.2 = ExitKind.fuelOut then [] else [.endWait] with htailD
    have htailc : tailD = [] ∨ tailD = [.endWait] := endTail_cases _
    intro t1 t2 heq
    rw [hU] at heq
    obtain ⟨u, v, hl, _, ht2⟩ := wrapped_split .ioError D.1 tailD t1 t2
      (by simp) (by rcases htailc with h | h <;> rw [h] <;> simp) heq
    obtain ⟨hv, hexit⟩ := download_loop_ioError_last flag io times ck ds
      (host_port host port) path fuel 0 0 0 ds c0 u v hl
    have htl : tailD = [.endWait] := by
      rw [htailD, hexit]
      rfl
    constructor
    · rw [ht2, hv, htl]
      rfl
    · rw [ht2, hv, htl]
      rfl
  · have hU := request_http_upload_ok connect ssl tlsOk cc flag io times
      host port path fuel c0 b hok
    set ck : Nat := if cc then 15000 else 50 with hck
    set ds : Nat := ck * 1024 * 1024 with hds
    set U := upload_loop flag io times ds (host_port host port) path fuel
      0 0 0 ds c0 with hUdef
    set tailU : List Event :=
      if U.2.2 = ExitKind.fuelOut then [] else [.endWait] with htailU
    have htailc : tailU = [] ∨ tailU = [.endWait] := endTail_cases _
    intro t1 t2 heq
    rw [hU] at heq
    obtain ⟨u, v, hl, _, ht2⟩ := wrapped_split .ioError U.1 tailU t1 t2
      (by simp) (by rcases htailc with h | h <;> rw [h] <;> simp) heq
    obtain ⟨hv, hexit⟩ := upload_loop_ioError_last flag io times ds
      (host_port host port) path fuel 0 0 0 ds c0 u v hl
    have htl : tailU = [.endWait] := by
      rw [htailU, hexit]
      rfl
    constructor
    · rw [ht2, hv, htl]
      rfl
    · rw [ht2, hv, htl]
      rfl

/-- Witness for Claim C6's theorem: a download worker whose first read and an
upload worker whose first head write fail; in both traces only the
end-barrier wait follows the error. -/
theorem io_error_terminates_witness :
    (([Event.endWait] : List Event) = [.endWait] ∧
      countAdds [Event.endWait] = 0) ∧
    (([Event.endWait] : List Event) = [.endWait] ∧
      countAdds [Event.endWait] = 0) := by
  have h := io_error_terminates (fun _ => true) false false false
    (fun _ => false) (fun _ => false) (fun _ => 0) "h" 80 "/p" 3 0 false rfl
  exact ⟨h.1 [Event.startWait] [Event.endWait] (by decide),
    h.2 [Event.startWait] [Event.endWait] (by decide)⟩

/-- Claim C7.  Every GET head emitted by the download worker has exactly the
form `GET {path}?cors=true&r={ms}&ckSize={chunks}&size={bytes} HTTP/1.1`,
`Host: {host}:{port}`, `User-Agent: bim/1.0`, where the declared size is the
chunk count times 1,048,576 and the chunk count is 15,000 in
connection-close mode and 50 otherwise (a 300-fold difference in declared
data). -/
theorem download_request_format (connect : Nat → Bool) (ssl tlsOk cc : Bool)
    (flag io : Nat → Bool) (times : Nat → Nat) (host : String) (port : Nat)
    (path : String) (fuel c0 : Nat) (b : Bool)
    (hok : (make_connection connect ssl tlsOk).outcome = .ok b) :
    (∀ t1 h t2,
      (request_http_download connect ssl tlsOk cc flag io times host port
          path fuel c0).1 = t1 ++ .sendHead h :: t2 →
      ∃ k, h = "GET " ++ path ++ "?cors=true&r=" ++ toString (times k) ++
        "&ckSize=" ++ toString (if cc then (15000 : Nat) else 50) ++
        "&size=" ++ toString ((if cc then (15000 : Nat) else 50) * 1048576) ++
        " HTTP/1.1\r\nHost: " ++ host ++ ":" ++ toString port ++
        "\r\nUser-Agent: bim/1.0\r\n\r\n") ∧
    (if cc then (15000 : Nat) else 50) * 1024 * 1024 =
      (if cc then (15000 : Nat) else 50) * 1048576 ∧
    (15000 : Nat) * 1048576 = 300 * (50 * 1048576) := by
  have hU := request_http_download_ok connect ssl tlsOk cc flag io times
    host port path fuel c0 b hok
  set ck : Nat := if cc then 15000 else 50 with hck
  set ds : Nat := ck * 1024 * 1024 with hds
  set D := download_loop flag io times ck ds (host_port host port) path fuel
    0 0 0 ds c0 with hDdef
  set tailD : List Event :=
    if D.2.2 = ExitKind.fuelOut then [] else [.endWait] with htailD
  have htailc : tailD = [] ∨ tailD = [.endWait] := endTail_cases _
  have hTr := download_loop_traceOk flag io times ck ds (host_port host port)
    path fuel 0 0 0 ds c0
  rw [← hDdef] at hTr
  have hds' : ds = ck * 1048576 := by
    rw [hds]
    omega
  refine ⟨?_, by omega, by norm_num⟩
  intro t1 h t2 heq
  rw [hU] at heq
  obtain ⟨u, v, hl, _, _⟩ := wrapped_split (.sendHead h) D.1 tailD t1 t2
    (by simp) (by rcases htailc with hc | hc <;> rw [hc] <;> simp) heq
  obtain ⟨k, hk⟩ := hTr.sendHeadForm u h v hl
  refine ⟨k, ?_⟩
  rw [hk, hds']
  simp [download_request_head, host_port, String.append_assoc]

/-- Witness for Claim C7's theorem: the single GET head sent by a concrete
one-cycle download run has the stated form. -/
theorem download_request_format_witness :
    ∃ k : Nat,
      download_request_head "/p" 5 50 52428800 (host_port "h" 80) =
        "GET " ++ "/p" ++ "?cors=true&r=" ++ toString (5 : Nat) ++
        "&ckSize=" ++ toString (50 : Nat) ++ "&size=" ++
        toString (52428800 : Nat) ++ " HTTP/1.1\r\nHost: " ++ "h" ++ ":" ++
        toString (80 : Nat) ++ "\r\nUser-Agent: bim/1.0\r\n\r\n" := by
  have h := download_request_format (fun _ => true) false false false
    (fun i => decide (1 ≤ i)) (fun _ => true) (fun _ => 5) "h" 80 "/p" 2 0
    false rfl
  exact h.1 [Event.startWait]
    (download_request_head "/p" 5 50 52428800 (host_port "h" 80))
    [Event.localReset, Event.endWait] (by decide)

end BimCore
namespace BimCore

/-- Claim C3.  In an upload worker with an established connection, a
successful POST-head write is followed immediately by a shared-counter
increment of exactly the head's byte length and by the reset of the local
per-resource counter to zero; every successful payload-chunk write is
followed immediately by a shared-counter increment of exactly 65536; and the
written chunk (`request_chunk`) is itself exactly 65536 bytes long. -/
theorem upload_counter_spec (connect : Nat → Bool) (ssl tlsOk cc : Bool)
    (flag io : Nat → Bool) (times : Nat → Nat) (host : String) (port : Nat)
    (path : String) (fuel c0 : Nat) (b : Bool)
    (hok : (make_connection connect ssl tlsOk).outcome = .ok b) :
    (∀ t1 h t2,
      (request_http_upload connect ssl tlsOk cc flag io times host port path
          fuel c0).1 = t1 ++ .sendHead h :: t2 →
      ∃ t3, t2 = .addCounter h.utf8ByteSize :: .localReset :: t3) ∧
    (∀ t1 n t2,
      (request_http_upload connect ssl tlsOk cc flag io times host port path
          fuel c0).1 = t1 ++ .sendChunk n :: t2 →
      n = 65536 ∧ ∃ t3, t2 = .addCounter 65536 :: t3) ∧
    request_chunk.utf8ByteSize = 65536 := by
  have hU := request_http_upload_ok connect ssl tlsOk cc flag io times host
    port path fuel c0 b hok
  set ck : Nat := if cc then 15000 else 50 with hck
  set ds : Nat := ck * 1024 * 1024 with hds
  set U := upload_loop flag io times ds (host_port host port) path fuel
    0 0 0 ds c0 with hUdef
  set tailU : List Event :=
    if U.2.2 = ExitKind.fuelOut then [] else [.endWait] with htailU
  have htailc : tailU = [] ∨ tailU = [.endWait] := endTail_cases _
  have hTr := upload_loop_traceOk flag io times ds (host_port host port)
    path fuel 0 0 0 ds c0
  rw [← hUdef] at hTr
  refine ⟨?_, ?_, request_chunk_len_eq⟩
  · intro t1 h t2 heq
    rw [hU] at heq
    obtain ⟨u, v, hl, _, ht2⟩ := wrapped_split (.sendHead h) U.1 tailU t1 t2
      (by simp) (by rcases htailc with hc | hc <;> rw [hc] <;> simp) heq
    obtain ⟨_, t3, ht3⟩ := hTr.sendHeadParts u h v hl
    refine ⟨t3 ++ tailU, ?_⟩
    rw [ht2, ht3]
    rfl
  · intro t1 n t2 heq
    rw [hU] at heq
    obtain ⟨u, v, hl, _, ht2⟩ := wrapped_split (.sendChunk n) U.1 tailU t1 t2
      (by simp) (by rcases htailc with hc | hc <;> rw [hc] <;> simp) heq
    obtain ⟨hn, t3, ht3⟩ := hTr.sendChunk_split u n v hl
    refine ⟨by rw [hn, request_chunk_len_eq], t3 ++ tailU, ?_⟩
    rw [ht2, ht3]
    rfl

/-- Witness for Claim C3's theorem: in a concrete one-head one-chunk upload
run, the head write is followed by its byte-length increment and the local
reset, and the chunk write by an increment of 65536 with the chunk being
65536 bytes. -/
theorem upload_counter_spec_witness :
    (∃ t3, ([Event.addCounter 83, Event.localReset,
        Event.sendChunk request_chunk_len, Event.addCounter 65536,
        Event.endWait] : List Event) =
      .addCounter (upload_request_head "/p" 5 (host_port "h" 80)
          52428800).utf8ByteSize :: .localReset :: t3) ∧
    (request_chunk_len = 65536 ∧
      ∃ t3, ([Event.addCounter 65536, Event.endWait] : List Event) =
        .addCounter 65536 :: t3) := by
  have h := upload_counter_spec (fun _ => true) false false false
    (fun i => decide (2 ≤ i)) (fun _ => true) (fun _ => 5) "h" 80 "/p" 5 0
    false rfl
  constructor
  · exact h.1 [Event.startWait]
      (upload_request_head "/p" 5 (host_port "h" 80) 52428800)
      [Event.addCounter 83, Event.localReset,
        Event.sendChunk request_chunk_len, Event.addCounter 65536,
        Event.endWait] rfl
  · exact h.2.1 [Event.startWait,
      .sendHead (upload_request_head "/p" 5 (host_port "h" 80) 52428800),
      .addCounter 83, .localReset] request_chunk_len
      [Event.addCounter 65536, Event.endWait] rfl

end BimCore
namespace BimCore

/-- Claim C8 (amended).  Every POST head emitted by the upload worker
declares a Content-Length equal to the chunk-size-derived total data size,
and is followed on the wire by exactly that many payload bytes before the
next POST head; if the worker terminates (stop flag or I/O error) before
issuing another head, at most that many payload bytes follow the head. -/
theorem upload_wire_spec (connect : Nat → Bool) (ssl tlsOk cc : Bool)
    (flag io : Nat → Bool) (times : Nat → Nat) (host : String) (port : Nat)
    (path : String) (fuel c0 : Nat) (b : Bool)
    (hok : (make_connection connect ssl tlsOk).outcome = .ok b) :
    ∀ t1 h t2,
      (request_http_upload connect ssl tlsOk cc flag io times host port path
          fuel c0).1 = t1 ++ .sendHead h :: t2 →
      (∃ k, h = "POST " ++ path ++ "?r=" ++ toString (times k) ++
        " HTTP/1.1\r\nHost: " ++ host ++ ":" ++ toString port ++
        "\r\nUser-Agent: bim/1.0\r\nContent-Length: " ++
        toString ((if cc then (15000 : Nat) else 50) * 1048576) ++
        "\r\n\r\n") ∧
      (hasHead t2 = true →
        preHeadPayload t2 = (if cc then (15000 : Nat) else 50) * 1048576) ∧
      preHeadPayload t2 ≤ (if cc then (15000 : Nat) else 50) * 1048576 := by
  have hU := request_http_upload_ok connect ssl tlsOk cc flag io times host
    port path fuel c0 b hok
  set ck : Nat := if cc then 15000 else 50 with hck
  set ds : Nat := ck * 1024 * 1024 with hds
  set U := upload_loop flag io times ds (host_port host port) path fuel
    0 0 0 ds c0 with hUdef
  set tailU : List Event :=
    if U.2.2 = ExitKind.fuelOut then [] else [.endWait] with htailU
  have htailc : tailU = [] ∨ tailU = [.endWait] := endTail_cases _
  have hTr := upload_loop_traceOk flag io times ds (host_port host port)
    path fuel 0 0 0 ds c0
  rw [← hUdef] at hTr
  have hds65 : (65536 : Nat) ∣ ds := ⟨ck * 16, by rw [hds]; ring⟩
  have hds' : ds = ck * 1048576 := by rw [hds]; ring
  intro t1 h t2 heq
  rw [hU] at heq
  obtain ⟨u, v, hl, _, ht2⟩ := wrapped_split (.sendHead h) U.1 tailU t1 t2
    (by simp) (by rcases htailc with hc | hc <;> rw [hc] <;> simp) heq
  obtain ⟨⟨k, hk⟩, _⟩ := hTr.sendHeadParts u h v hl
  have hseg := upload_loop_segments flag io times ds (host_port host port)
    path hds65 fuel 0 0 0 ds c0 le_rfl hds65 u h v hl
  have hpre : preHeadPayload t2 = preHeadPayload v := by
    rw [ht2, preHeadPayload_append]
    rcases htailc with hc | hc <;> rw [hc] <;> simp [preHeadPayload]
  have hhh : hasHead t2 = hasHead v := by
    rw [ht2, hasHead_append]
    rcases htailc with hc | hc <;> rw [hc] <;> simp [hasHead]
  refine ⟨⟨k, ?_⟩, ?_, ?_⟩
  · rw [hk, hds']
    simp [upload_request_head, host_port, String.append_assoc]
  · intro hh
    rw [hpre, ← hds']
    exact hseg.2 (by rw [← hhh]; exact hh)
  · rw [hpre, ← hds']
    exact hseg.1

/-- Witness for Claim C8's theorem: the POST head of a concrete upload run
has the stated form with Content-Length 52,428,800, and the payload sent
after it before the run ends is at most that. -/
theorem upload_wire_spec_witness :
    (∃ k : Nat, upload_request_head "/p" 5 (host_port "h" 80) 52428800 =
      "POST " ++ "/p" ++ "?r=" ++ toString (5 : Nat) ++
      " HTTP/1.1\r\nHost: " ++ "h" ++ ":" ++ toString (80 : Nat) ++
      "\r\nUser-Agent: bim/1.0\r\nContent-Length: " ++
      toString (52428800 : Nat) ++ "\r\n\r\n") ∧
    preHeadPayload [Event.addCounter 83, Event.localReset,
      Event.sendChunk request_chunk_len, Event.addCounter 65536,
      Event.endWait] ≤ 52428800 := by
  have h := upload_wire_spec (fun _ => true) false false false
    (fun i => decide (2 ≤ i)) (fun _ => true) (fun _ => 5) "h" 80 "/p" 5 0
    false rfl
  have h2 := h [Event.startWait]
    (upload_request_head "/p" 5 (host_port "h" 80) 52428800)
    [Event.addCounter 83, Event.localReset,
      Event.sendChunk request_chunk_len, Event.addCounter 65536,
      Event.endWait] rfl
  exact ⟨h2.1, h2.2.2⟩

/-- Counterexample to Claim C8 as stated: an upload worker stopped by the
flag mid-body terminates having sent only 65536 payload bytes after a POST
head that declared 52,428,800 bytes — the head is not followed by exactly
the declared byte count before the worker's termination. -/
theorem upload_wire_counterexample :
    (request_http_upload (fun _ => true) false false false
        (fun i => decide (2 ≤ i)) (fun _ => true) (fun _ => 5) "h" 80 "/p" 5
        0).1 =
      [Event.startWait] ++ .sendHead (upload_request_head "/p" 5
          (host_port "h" 80) 52428800) ::
        [Event.addCounter 83, Event.localReset,
          Event.sendChunk request_chunk_len, Event.addCounter 65536,
          Event.endWait] ∧
    hasHead [Event.addCounter 83, Event.localReset,
      Event.sendChunk request_chunk_len, Event.addCounter 65536,
      Event.endWait] = false ∧
    preHeadPayload [Event.addCounter 83, Event.localReset,
      Event.sendChunk request_chunk_len, Event.addCounter 65536,
      Event.endWait] = 65536 ∧
    (65536 : Nat) ≠ 52428800 := by
  refine ⟨rfl, rfl, ?_, by decide⟩
  rw [request_chunk_len_eq]
  decide

end BimCore
